import Mathlib

/-!
Shallow embedding of the ROI (region of interest) model of `SelectionRoi.py`.

Geometry is modelled over `ℚ` (the Python code computes on floats; all the
claims under scrutiny use exact dyadic inputs, so rational arithmetic is a
faithful model of the arithmetic the code performs).  Qt library classes used
by the code (`QRectF`, the QGraphicsItem bounding rectangle, the painter-path
element list) are embedded by their documented semantics.
-/

set_option autoImplicit false

namespace ImageViewer

/-- Model of Qt's `QRectF`: a rectangle stored as x, y (top-left corner),
width and height, all rationals. -/
structure QRectF where
  x : ℚ
  y : ℚ
  w : ℚ
  h : ℚ
deriving DecidableEq, Repr

/-- Left edge, `QRectF::left()`. -/
def QRectF.left (r : QRectF) : ℚ := r.x

/-- Top edge, `QRectF::top()`. -/
def QRectF.top (r : QRectF) : ℚ := r.y

/-- Right edge, `QRectF::right()` = x + w. -/
def QRectF.right (r : QRectF) : ℚ := r.x + r.w

/-- Bottom edge, `QRectF::bottom()` = y + h. -/
def QRectF.bottom (r : QRectF) : ℚ := r.y + r.h

/-- `QRectF::setLeft(v)`: moves the left edge, never the right edge
(the width changes). -/
def QRectF.setLeft (r : QRectF) (v : ℚ) : QRectF :=
  ⟨v, r.y, r.x + r.w - v, r.h⟩

/-- `QRectF::setRight(v)`: moves the right edge, never the left edge. -/
def QRectF.setRight (r : QRectF) (v : ℚ) : QRectF :=
  ⟨r.x, r.y, v - r.x, r.h⟩

/-- `QRectF::setTop(v)`: moves the top edge, never the bottom edge. -/
def QRectF.setTop (r : QRectF) (v : ℚ) : QRectF :=
  ⟨r.x, v, r.w, r.y + r.h - v⟩

/-- `QRectF::setBottom(v)`: moves the bottom edge, never the top edge. -/
def QRectF.setBottom (r : QRectF) (v : ℚ) : QRectF :=
  ⟨r.x, r.y, r.w, v - r.y⟩

/-- `QRectF::normalized()`: swaps left/right corners if the width is negative
and top/bottom corners if the height is negative, yielding non-negative
width and height. -/
def QRectF.normalized (r : QRectF) : QRectF :=
  let r1 := if r.w < 0 then QRectF.mk (r.x + r.w) r.y (-r.w) r.h else r
  if r1.h < 0 then QRectF.mk r1.x (r1.y + r1.h) r1.w (-r1.h) else r1

/-- `QRectF::adjusted(x1, y1, x2, y2)`. -/
def QRectF.adjusted (r : QRectF) (x1 y1 x2 y2 : ℚ) : QRectF :=
  ⟨r.x + x1, r.y + y1, r.w + x2 - x1, r.h + y2 - y1⟩

/-- The `AnchorPosition` enum of `SelectionRoi.py` (lines 106-119). -/
inductive AnchorPosition where
  | LEFT
  | RIGHT
  | TOP
  | TOP_LEFT
  | TOP_RIGHT
  | BOTTOM
  | BOTTOM_LEFT
  | BOTTOM_RIGHT
  | START
  | MIDDLE
  | END
deriving DecidableEq, Repr

/-- State of one `Anchor` (a `QGraphicsRectItem` child of the ROI):
its anchor-position kind, its own rectangle's width and height (the square
side, `anchor_size` at construction), its pen width, its position set via
`setPos`, and its opacity. -/
structure Anchor where
  position : AnchorPosition
  rectW : ℚ
  rectH : ℚ
  penW : ℚ
  posX : ℚ
  posY : ℚ
  opacity : ℚ
deriving DecidableEq, Repr

/-- The half-width offset `off = point.boundingRect().width() / 2` used by the
`adjust_anchors` implementations: a `QGraphicsRectItem` bounding rectangle is
the item's rect grown by half the pen width on every side, so its width is
`rectW + penW`. -/
def Anchor.off (a : Anchor) : ℚ := (a.rectW + a.penW) / 2

/-- `QGraphicsRectItem::boundingRect` / `QGraphicsEllipseItem::boundingRect`
of the ROI itself: the item rect adjusted outward by half the pen width. -/
def itemBoundingRect (rect : QRectF) (penW : ℚ) : QRectF :=
  rect.adjusted (-(penW / 2)) (-(penW / 2)) (penW / 2) (penW / 2)

/-- `ShapeRoi.get_anchor_types` (lines 366-374): the fixed eight box anchors. -/
def ShapeRoi.get_anchor_types : List AnchorPosition :=
  [AnchorPosition.LEFT,
   AnchorPosition.RIGHT,
   AnchorPosition.TOP,
   AnchorPosition.TOP_LEFT,
   AnchorPosition.TOP_RIGHT,
   AnchorPosition.BOTTOM,
   AnchorPosition.BOTTOM_LEFT,
   AnchorPosition.BOTTOM_RIGHT]

/-- `RectangleRoi` (lines 423-428) defines only `__init__`;
`get_anchor_types` is inherited unchanged from `ShapeRoi`. -/
def RectangleRoi.get_anchor_types : List AnchorPosition :=
  ShapeRoi.get_anchor_types

/-- `EllipseRoi` (lines 431-436) defines only `__init__`;
`get_anchor_types` is inherited unchanged from `ShapeRoi`. -/
def EllipseRoi.get_anchor_types : List AnchorPosition :=
  ShapeRoi.get_anchor_types

/-- The edge-dispatch part of `ShapeRoi.adjust_roi` (lines 376-397), before
the final `setRect(rect.normalized())`.  `dx`, `dy` are the components of the
`mouse` drag delta.  An anchor position matching none of the eight box kinds
falls through every branch and leaves the rect untouched. -/
def ShapeRoi.adjust_roi_rect (rect : QRectF) (pos : AnchorPosition) (dx dy : ℚ) : QRectF :=
  match pos with
  | AnchorPosition.LEFT => rect.setLeft (rect.left + dx)
  | AnchorPosition.RIGHT => rect.setRight (rect.right + dx)
  | AnchorPosition.TOP => rect.setTop (rect.top + dy)
  | AnchorPosition.TOP_LEFT =>
      let r1 := rect.setLeft (rect.left + dx)
      r1.setTop (r1.top + dy)
  | AnchorPosition.TOP_RIGHT =>
      let r1 := rect.setRight (rect.right + dx)
      r1.setTop (r1.top + dy)
  | AnchorPosition.BOTTOM => rect.setBottom (rect.bottom + dy)
  | AnchorPosition.BOTTOM_LEFT =>
      let r1 := rect.setLeft (rect.left + dx)
      r1.setBottom (r1.bottom + dy)
  | AnchorPosition.BOTTOM_RIGHT =>
      let r1 := rect.setRight (rect.right + dx)
      r1.setBottom (r1.bottom + dy)
  | _ => rect

/-- `ShapeRoi.adjust_roi` at the level of the stored rect: edge dispatch
followed by `self.setRect(rect.normalized())` (line 398). -/
def ShapeRoi.adjust_roi (rect : QRectF) (pos : AnchorPosition) (dx dy : ℚ) : QRectF :=
  (ShapeRoi.adjust_roi_rect rect pos dx dy).normalized

/-- `PathRoi.get_anchor_types` (lines 320-327): a `START` anchor
unconditionally; when `is_anchored`, one `MIDDLE` per `range(n_points - 2)`
iteration (empty when `n_points < 2`, matching Python's empty `range` of a
negative bound) followed by an `END` anchor. -/
def PathRoi.get_anchor_types (n_points : ℕ) (is_anchored : Bool) : List AnchorPosition :=
  let anchors := [AnchorPosition.START]
  if is_anchored then
    anchors ++ List.replicate (n_points - 2) AnchorPosition.MIDDLE ++ [AnchorPosition.END]
  else
    anchors

/-- `QPainterPath::setElementPositionAt(i, x, y)` on the element list. -/
def setElementPositionAt (elements : List (ℚ × ℚ)) (i : ℕ) (x y : ℚ) : List (ℚ × ℚ) :=
  elements.set i (x, y)

/-- The anchored branch of `PathRoi.adjust_roi` (lines 334-344) acting on the
painter-path element list.  The Python loop scans `self.anchors` for the
dragged anchor object; `matchIdx` is the index of that anchor in the list
(`none` when the anchor is foreign to this ROI, in which case the loop
matches nothing and the path is left unchanged).  When a match is found at
index `i`, element `i` is moved by the drag delta; when additionally `i = 0`
and the path is closed, the last element is set to the same moved position
(computed from `path_element`, the element at `i` read before the first
update).  Out-of-range element access is undefined behaviour in Qt and
unreachable for anchors owned by a well-formed ROI; the model leaves the
list unchanged there. -/
def PathRoi.adjust_roi_core (elements : List (ℚ × ℚ)) (is_closed : Bool)
    (matchIdx : Option ℕ) (dx dy : ℚ) : List (ℚ × ℚ) :=
  match matchIdx with
  | none => elements
  | some i =>
    match elements[i]? with
    | none => elements
    | some pe =>
      let elems1 := setElementPositionAt elements i (pe.1 + dx) (pe.2 + dy)
      if i = 0 ∧ is_closed then
        setElementPositionAt elems1 (elems1.length - 1) (pe.1 + dx) (pe.2 + dy)
      else
        elems1

/-- Geometry of a concrete ROI: a box rect (Rectangle/Ellipse, which share
`ShapeRoi`), a painter-path element list with the `PathRoi` flags, or a
point. -/
inductive RoiGeometry where
  | shape (rect : QRectF)
  | path (elements : List (ℚ × ℚ)) (n_points : ℕ) (is_closed : Bool) (is_anchored : Bool)
  | point (rect : QRectF)
deriving DecidableEq, Repr

/-- State of a `SelectionRoi`: its geometry, its pen width, its anchor list
(in `get_anchor_types` order), and the style fields set in
`SelectionRoi.__init__` / `set_properties`. -/
structure RoiState where
  geometry : RoiGeometry
  penW : ℚ
  anchors : List Anchor
  base_line_width : ℚ
  base_anchor_size : ℚ
  color_rgb : List ℕ
deriving DecidableEq, Repr

/-- One iteration of the `ShapeRoi.adjust_anchors` loop (lines 401-420):
reposition one anchor from the bounding rect `bounds`; an anchor whose kind
matches none of the eight cases is left where it is (no `setPos` runs). -/
def shapeAnchorNewPos (bounds : QRectF) (a : Anchor) : Anchor :=
  match a.position with
  | AnchorPosition.LEFT =>
      { a with posX := bounds.left - a.off, posY := bounds.top - a.off + bounds.h / 2 }
  | AnchorPosition.RIGHT =>
      { a with posX := bounds.right - a.off, posY := bounds.top - a.off + bounds.h / 2 }
  | AnchorPosition.TOP =>
      { a with posX := bounds.left - a.off + bounds.w / 2, posY := bounds.top - a.off }
  | AnchorPosition.TOP_LEFT =>
      { a with posX := bounds.left - a.off, posY := bounds.top - a.off }
  | AnchorPosition.TOP_RIGHT =>
      { a with posX := bounds.right - a.off, posY := bounds.top - a.off }
  | AnchorPosition.BOTTOM =>
      { a with posX := bounds.left - a.off + bounds.w / 2, posY := bounds.bottom - a.off }
  | AnchorPosition.BOTTOM_LEFT =>
      { a with posX := bounds.left - a.off, posY := bounds.bottom - a.off }
  | AnchorPosition.BOTTOM_RIGHT =>
      { a with posX := bounds.right - a.off, posY := bounds.bottom - a.off }
  | _ => a

/-- One iteration of the `PathRoi.adjust_anchors` loop (lines 347-352):
center anchor `a` on path element `e`. -/
def setAnchorToElem (e : ℚ × ℚ) (a : Anchor) : Anchor :=
  { a with posX := e.1 - a.off, posY := e.2 - a.off }

/-- The `PathRoi.adjust_anchors` loop: anchor `i` is centered on path element
`i`, pairing the two lists positionally.  When the anchor list is longer than
the element list, Qt's `elementAt` is out of range (undefined behaviour,
unreachable for a well-formed ROI); the model leaves such anchors unchanged. -/
def adjustPathAnchorsFrom : List (ℚ × ℚ) → List Anchor → List Anchor
  | _, [] => []
  | [], a :: rest => a :: adjustPathAnchorsFrom [] rest
  | e :: es, a :: rest => setAnchorToElem e a :: adjustPathAnchorsFrom es rest

/-- `adjust_anchors` dispatched on the concrete ROI class: `ShapeRoi` (lines
401-420) repositions each anchor from `self.boundingRect()`; `PathRoi`
(lines 347-352) centers anchor `i` on path element `i`; `PointRoi` (line
295) is `pass`. -/
def SelectionRoi.adjust_anchors (st : RoiState) : RoiState :=
  match st.geometry with
  | RoiGeometry.shape rect =>
      { st with anchors := st.anchors.map (shapeAnchorNewPos (itemBoundingRect rect st.penW)) }
  | RoiGeometry.path elements _ _ _ =>
      { st with anchors := adjustPathAnchorsFrom elements st.anchors }
  | RoiGeometry.point _ => st

/-- `SelectionRoi.show_anchors` (lines 203-210): sets every anchor's opacity
to `float(do_show)`, i.e. 1.0 when showing and 0.0 when hiding, and touches
nothing else. -/
def SelectionRoi.show_anchors (st : RoiState) (do_show : Bool) : RoiState :=
  { st with anchors := st.anchors.map (fun a => { a with opacity := if do_show then 1 else 0 }) }

/-- `SelectionRoi.hide_anchors` (lines 212-215): wrapper for
`show_anchors(False)`. -/
def SelectionRoi.hide_anchors (st : RoiState) : RoiState :=
  SelectionRoi.show_anchors st false

/-- `SelectionRoi.__init__` (lines 152-165): anchors are created from
`get_anchor_types()` with the default anchor size 4 at position (0,0) (a new
`QGraphicsItem` has opacity 1 and the default pen has width 1), then
`hide_anchors()` runs, then the base style fields are set. -/
def SelectionRoi.init_state (geom : RoiGeometry) (kinds : List AnchorPosition) : RoiState :=
  let anchors := kinds.map (fun k =>
    { position := k, rectW := 4, rectH := 4, penW := 1, posX := 0, posY := 0, opacity := 1 : Anchor })
  SelectionRoi.hide_anchors
    { geometry := geom
      penW := 1
      anchors := anchors
      base_line_width := 1
      base_anchor_size := 4
      color_rgb := [0, 0, 0] }

/-- `SelectionRoi.set_to_scale` (lines 175-190): the ROI pen width becomes
`base_line_width / scene_scale`; each anchor receives the same pen and its
rect's width and height become `base_anchor_size / scene_scale`; finally
`adjust_anchors()` runs. -/
def SelectionRoi.set_to_scale (st : RoiState) (scene_scale : ℚ) : RoiState :=
  let newPenW := st.base_line_width / scene_scale
  let st1 := { st with
    penW := newPenW
    anchors := st.anchors.map (fun a =>
      { a with penW := newPenW,
               rectW := st.base_anchor_size / scene_scale,
               rectH := st.base_anchor_size / scene_scale }) }
  SelectionRoi.adjust_anchors st1

/-- `ShapeRoi.__init__` (lines 359-364): the base `SelectionRoi` constructor
(anchors from the eight box kinds, then hidden), the rect set from the
constructor arguments, then `adjust_anchors()`.  `RectangleRoi` and
`EllipseRoi` both delegate straight to this. -/
def ShapeRoi.construct (x0 y0 width height : ℚ) : RoiState :=
  SelectionRoi.adjust_anchors
    (SelectionRoi.init_state (RoiGeometry.shape ⟨x0, y0, width, height⟩) ShapeRoi.get_anchor_types)

/-- `PathRoi.__init__` (lines 303-318): `n_points = min(len(x), len(y))`,
the painter path is the first `n_points` coordinate pairs with, when closed,
`closeSubpath()` appending a final element duplicating the first vertex; the
base constructor materializes the anchors from `get_anchor_types`, then
`adjust_anchors()` runs.  An empty coordinate list raises `IndexError` at
`x[0]` in Python, modelled as `none`. -/
def PathRoi.construct (x y : List ℚ) (is_closed is_anchored : Bool) : Option RoiState :=
  match List.zip x y with
  | [] => none
  | v :: vs =>
    let verts := v :: vs
    let elements := verts ++ (if is_closed then [v] else [])
    some (SelectionRoi.adjust_anchors
      (SelectionRoi.init_state
        (RoiGeometry.path elements verts.length is_closed is_anchored)
        (PathRoi.get_anchor_types verts.length is_anchored)))

/-- Squared Euclidean distance between two points.  `distance_to_path`
(lines 244-247) computes `((bp.x - p.x)**2 + (bp.y - p.y)**2)**0.5`; the model
keeps the square, which is rational-valued; comparisons against a tolerance
`t` in the code correspond to comparisons against `t^2` here, since the
square root is strictly monotone on non-negative reals. -/
def distSq (p q : ℚ × ℚ) : ℚ :=
  (q.1 - p.1) ^ 2 + (q.2 - p.2) ^ 2

/-- `SelectionRoi.distance_to_boundary` (lines 232-242) with
`increment = 0.005`, squared: the minimum over the initial
`distance_to_path(point, boundary)` sample (default percent 0.0) and the
samples at `np.arange(0.0, 1.0, 0.005)`, i.e. percents k/200 for k < 200.
`boundary` is the `pointAtPercent` function of `self.shape()`. -/
def distance_to_boundary_sq (boundary : ℚ → ℚ × ℚ) (point : ℚ × ℚ) : ℚ :=
  ((List.range 200).map (fun k : ℕ => (k : ℚ) / 200)).foldl
    (fun m p => min m (distSq point (boundary p)))
    (distSq point (boundary 0))

/-- `SelectionRoi.mousePressEvent` (lines 221-230): the event is accepted
exactly when `distance_to_boundary(pos, increment=0.005) < 4`, i.e. when the
squared distance is below 16. -/
def mousePress_accepts (boundary : ℚ → ℚ × ℚ) (point : ℚ × ℚ) : Bool :=
  decide (distance_to_boundary_sq boundary point < 16)

/-- `QPainterPath::pointAtPercent` for the painter path of an axis-aligned
rectangle with positive width and height: the percent parametrizes the path
by arc length along moveTo(x,y) → lineTo(x+w,y) → lineTo(x+w,y+h) →
lineTo(x,y+h) → close. -/
def rectPointAtPercent (r : QRectF) (t : ℚ) : ℚ × ℚ :=
  let s := t * (2 * (r.w + r.h))
  if s ≤ r.w then (r.x + s, r.y)
  else if s ≤ r.w + r.h then (r.x + r.w, r.y + (s - r.w))
  else if s ≤ 2 * r.w + r.h then (r.x + r.w - (s - r.w - r.h), r.y + r.h)
  else (r.x, r.y + r.h - (s - 2 * r.w - r.h))

/-- Modelled from the spec, for comparison with `ShapeRoi.adjust_roi`:
whether the spec's box policy says anchor kind `pos` moves the left edge. -/
def movesLeftEdge (pos : AnchorPosition) : Bool :=
  match pos with
  | AnchorPosition.LEFT | AnchorPosition.TOP_LEFT | AnchorPosition.BOTTOM_LEFT => true
  | _ => false

/-- Modelled from the spec: whether anchor kind `pos` moves the right edge. -/
def movesRightEdge (pos : AnchorPosition) : Bool :=
  match pos with
  | AnchorPosition.RIGHT | AnchorPosition.TOP_RIGHT | AnchorPosition.BOTTOM_RIGHT => true
  | _ => false

/-- Modelled from the spec: whether anchor kind `pos` moves the top edge. -/
def movesTopEdge (pos : AnchorPosition) : Bool :=
  match pos with
  | AnchorPosition.TOP | AnchorPosition.TOP_LEFT | AnchorPosition.TOP_RIGHT => true
  | _ => false

/-- Modelled from the spec: whether anchor kind `pos` moves the bottom edge. -/
def movesBottomEdge (pos : AnchorPosition) : Bool :=
  match pos with
  | AnchorPosition.BOTTOM | AnchorPosition.BOTTOM_LEFT | AnchorPosition.BOTTOM_RIGHT => true
  | _ => false

/-- Modelled from the spec: the box drag policy stated edge-wise — each of the
four edges moves by the drag component exactly when the anchor kind names it,
and the result is re-assembled from the four edges. -/
def boxPolicySpec (rect : QRectF) (pos : AnchorPosition) (dx dy : ℚ) : QRectF :=
  let l := rect.left + (if movesLeftEdge pos then dx else 0)
  let r := rect.right + (if movesRightEdge pos then dx else 0)
  let t := rect.top + (if movesTopEdge pos then dy else 0)
  let b := rect.bottom + (if movesBottomEdge pos then dy else 0)
  ⟨l, t, r - l, b - t⟩

/-- Folding a whole sequence of `ShapeRoi.adjust_roi` drags over a box rect. -/
def applyDrags (rect : QRectF) (ops : List (AnchorPosition × ℚ × ℚ)) : QRectF :=
  ops.foldl (fun r o => ShapeRoi.adjust_roi r o.1 o.2.1 o.2.2) rect

/-! ## Helper lemmas -/

theorem QRectF.normalized_nonneg (r : QRectF) :
    0 ≤ r.normalized.w ∧ 0 ≤ r.normalized.h := by
  unfold QRectF.normalized
  dsimp only
  split_ifs <;> constructor <;> dsimp only <;> linarith

theorem QRectF.left_le_right_iff (r : QRectF) : r.left ≤ r.right ↔ 0 ≤ r.w := by
  simp [QRectF.left, QRectF.right]

theorem QRectF.top_le_bottom_iff (r : QRectF) : r.top ≤ r.bottom ↔ 0 ≤ r.h := by
  simp [QRectF.top, QRectF.bottom]

theorem ShapeRoi.adjust_roi_inv (rect : QRectF) (pos : AnchorPosition) (dx dy : ℚ) :
    (ShapeRoi.adjust_roi rect pos dx dy).left ≤ (ShapeRoi.adjust_roi rect pos dx dy).right ∧
    (ShapeRoi.adjust_roi rect pos dx dy).top ≤ (ShapeRoi.adjust_roi rect pos dx dy).bottom := by
  rw [QRectF.left_le_right_iff, QRectF.top_le_bottom_iff]
  exact QRectF.normalized_nonneg _

theorem applyDrags_inv (ops : List (AnchorPosition × ℚ × ℚ)) :
    ∀ rect : QRectF,
      rect.left ≤ rect.right ∧ rect.top ≤ rect.bottom →
      (applyDrags rect ops).left ≤ (applyDrags rect ops).right ∧
      (applyDrags rect ops).top ≤ (applyDrags rect ops).bottom := by
  induction ops with
  | nil => intro rect h; exact h
  | cons o rest ih =>
    intro rect _
    exact ih (ShapeRoi.adjust_roi rect o.1 o.2.1 o.2.2) (ShapeRoi.adjust_roi_inv rect o.1 o.2.1 o.2.2)

theorem shapeAnchorNewPos_idem (b : QRectF) (a : Anchor) :
    shapeAnchorNewPos b (shapeAnchorNewPos b a) = shapeAnchorNewPos b a := by
  obtain ⟨pos, aw, ah, ap, ax, ay, ao⟩ := a
  cases pos <;> rfl

theorem setAnchorToElem_idem (e : ℚ × ℚ) (a : Anchor) :
    setAnchorToElem e (setAnchorToElem e a) = setAnchorToElem e a := by
  obtain ⟨pos, aw, ah, ap, ax, ay, ao⟩ := a
  rfl

theorem adjustPathAnchorsFrom_idem (es : List (ℚ × ℚ)) (anchors : List Anchor) :
    adjustPathAnchorsFrom es (adjustPathAnchorsFrom es anchors) =
      adjustPathAnchorsFrom es anchors := by
  induction anchors generalizing es with
  | nil => cases es <;> rfl
  | cons a rest ih =>
    cases es with
    | nil =>
      show a :: adjustPathAnchorsFrom [] (adjustPathAnchorsFrom [] rest) =
        a :: adjustPathAnchorsFrom [] rest
      rw [ih]
    | cons e es2 =>
      show setAnchorToElem e (setAnchorToElem e a) ::
          adjustPathAnchorsFrom es2 (adjustPathAnchorsFrom es2 rest) =
        setAnchorToElem e a :: adjustPathAnchorsFrom es2 rest
      rw [ih, setAnchorToElem_idem]

theorem all_congr_local {α : Type} (p q : α → Bool) (l : List α)
    (h : ∀ a ∈ l, p a = q a) : l.all p = l.all q := by
  induction l with
  | nil => rfl
  | cons a rest ih =>
    simp only [List.all_cons, h a (List.mem_cons_self a rest),
      ih fun x hx => h x (List.mem_cons_of_mem a hx)]

theorem adjust_anchors_idem (st : RoiState) :
    SelectionRoi.adjust_anchors (SelectionRoi.adjust_anchors st) =
      SelectionRoi.adjust_anchors st := by
  obtain ⟨geom, pw, anchors, blw, bas, rgb⟩ := st
  cases geom with
  | shape rect =>
    have h : anchors.map
        (shapeAnchorNewPos (itemBoundingRect rect pw) ∘ shapeAnchorNewPos (itemBoundingRect rect pw)) =
        anchors.map (shapeAnchorNewPos (itemBoundingRect rect pw)) :=
      List.map_congr_left fun a _ => shapeAnchorNewPos_idem _ a
    simp only [SelectionRoi.adjust_anchors, List.map_map, h]
  | path elements n c anch =>
    simp only [SelectionRoi.adjust_anchors, adjustPathAnchorsFrom_idem]
  | point r => rfl

theorem adjust_anchors_penW (st : RoiState) :
    (SelectionRoi.adjust_anchors st).penW = st.penW := by
  obtain ⟨geom, pw, anchors, blw, bas, rgb⟩ := st
  cases geom <;> rfl

theorem shapeAnchorNewPos_pres (p : Anchor → Bool)
    (hp : ∀ (a : Anchor) (xv yv : ℚ), p { a with posX := xv, posY := yv } = p a)
    (b : QRectF) (a : Anchor) : p (shapeAnchorNewPos b a) = p a := by
  obtain ⟨pos, aw, ah, ap, ax, ay, ao⟩ := a
  cases pos <;> first
    | rfl
    | exact hp (Anchor.mk _ aw ah ap ax ay ao) _ _

theorem setAnchorToElem_pres (p : Anchor → Bool)
    (hp : ∀ (a : Anchor) (xv yv : ℚ), p { a with posX := xv, posY := yv } = p a)
    (e : ℚ × ℚ) (a : Anchor) : p (setAnchorToElem e a) = p a :=
  hp a (e.1 - a.off) (e.2 - a.off)

theorem adjustPathAnchorsFrom_all (p : Anchor → Bool)
    (hp : ∀ (a : Anchor) (xv yv : ℚ), p { a with posX := xv, posY := yv } = p a)
    (es : List (ℚ × ℚ)) (anchors : List Anchor) :
    (adjustPathAnchorsFrom es anchors).all p = anchors.all p := by
  induction anchors generalizing es with
  | nil => cases es <;> rfl
  | cons a rest ih =>
    cases es with
    | nil =>
      show (a :: adjustPathAnchorsFrom [] rest).all p = (a :: rest).all p
      simp only [List.all_cons, ih]
    | cons e es2 =>
      show (setAnchorToElem e a :: adjustPathAnchorsFrom es2 rest).all p = (a :: rest).all p
      simp only [List.all_cons, ih, setAnchorToElem_pres p hp]

theorem adjust_anchors_all (st : RoiState) (p : Anchor → Bool)
    (hp : ∀ (a : Anchor) (xv yv : ℚ), p { a with posX := xv, posY := yv } = p a) :
    (SelectionRoi.adjust_anchors st).anchors.all p = st.anchors.all p := by
  obtain ⟨geom, pw, anchors, blw, bas, rgb⟩ := st
  cases geom with
  | shape rect =>
    show (anchors.map _).all p = anchors.all p
    rw [List.all_map]
    exact all_congr_local _ _ _ fun a _ => shapeAnchorNewPos_pres p hp _ a
  | path elements n c anch =>
    exact adjustPathAnchorsFrom_all p hp elements anchors
  | point r => rfl

/-! ## Claim theorems -/

/-- Claim C1, counterexample: `EllipseRoi` does not override
`get_anchor_types`, so an Ellipse ROI's anchor-type list is not the
four-element list [LEFT, RIGHT, TOP, BOTTOM] the claim asserts. -/
theorem ellipse_anchor_types_ne_four_kinds :
    EllipseRoi.get_anchor_types ≠
      [AnchorPosition.LEFT, AnchorPosition.RIGHT, AnchorPosition.TOP, AnchorPosition.BOTTOM] := by
  decide

/-- Claim C1, amended: `EllipseRoi` inherits `get_anchor_types` unchanged
from `ShapeRoi`, so both Ellipse and Rectangle ROIs get exactly the same
eight anchor kinds, corners included. -/
theorem ellipse_and_rectangle_anchor_types_eight :
    EllipseRoi.get_anchor_types = ShapeRoi.get_anchor_types ∧
    EllipseRoi.get_anchor_types =
      [AnchorPosition.LEFT, AnchorPosition.RIGHT, AnchorPosition.TOP,
       AnchorPosition.TOP_LEFT, AnchorPosition.TOP_RIGHT, AnchorPosition.BOTTOM,
       AnchorPosition.BOTTOM_LEFT, AnchorPosition.BOTTOM_RIGHT] ∧
    EllipseRoi.get_anchor_types.length = 8 ∧
    RectangleRoi.get_anchor_types.length = 8 :=
  ⟨rfl, rfl, rfl, rfl⟩

/-- Claim C2: for every box ROI rect and every anchor kind, `adjust_roi`
moves exactly the edges the kind names (LEFT/RIGHT add dx to the left/right
edge, TOP/BOTTOM add dy to the top/bottom edge, corners both) and then
normalizes; in particular dragging the TOP_LEFT anchor of
Rectangle(50,10,50,40) by (5,5) yields the rect (55,15,45,35). -/
theorem box_adjust_roi_moves_named_edges :
    (∀ (rect : QRectF) (pos : AnchorPosition) (dx dy : ℚ),
      ShapeRoi.adjust_roi rect pos dx dy = (boxPolicySpec rect pos dx dy).normalized) ∧
    ShapeRoi.adjust_roi ⟨50, 10, 50, 40⟩ AnchorPosition.TOP_LEFT 5 5 = ⟨55, 15, 45, 35⟩ := by
  constructor
  · intro rect pos dx dy
    have h : ShapeRoi.adjust_roi_rect rect pos dx dy = boxPolicySpec rect pos dx dy := by
      obtain ⟨x, y, w, h⟩ := rect
      cases pos <;>
        (simp only [ShapeRoi.adjust_roi_rect, boxPolicySpec, movesLeftEdge, movesRightEdge,
            movesTopEdge, movesBottomEdge, QRectF.setLeft, QRectF.setRight, QRectF.setTop,
            QRectF.setBottom, QRectF.left, QRectF.right, QRectF.top, QRectF.bottom,
            QRectF.mk.injEq]
         refine ⟨?_, ?_, ?_, ?_⟩ <;> simp)
    rw [ShapeRoi.adjust_roi, h]
  · simp only [ShapeRoi.adjust_roi, ShapeRoi.adjust_roi_rect, QRectF.setLeft, QRectF.setTop,
      QRectF.left, QRectF.top, QRectF.normalized]
    norm_num

/-- Claim C3: after any `adjust_roi` call (any anchor kind, any delta,
starting from any rect) and after any further sequence of such calls, the
stored rect satisfies left ≤ right and top ≤ bottom: the final
`setRect(rect.normalized())` makes width and height non-negative. -/
theorem box_adjust_roi_normalized_invariant :
    (∀ (rect : QRectF) (pos : AnchorPosition) (dx dy : ℚ),
      (ShapeRoi.adjust_roi rect pos dx dy).left ≤ (ShapeRoi.adjust_roi rect pos dx dy).right ∧
      (ShapeRoi.adjust_roi rect pos dx dy).top ≤ (ShapeRoi.adjust_roi rect pos dx dy).bottom) ∧
    (∀ (rect : QRectF) (pos : AnchorPosition) (dx dy : ℚ)
       (ops : List (AnchorPosition × ℚ × ℚ)),
      (applyDrags (ShapeRoi.adjust_roi rect pos dx dy) ops).left ≤
        (applyDrags (ShapeRoi.adjust_roi rect pos dx dy) ops).right ∧
      (applyDrags (ShapeRoi.adjust_roi rect pos dx dy) ops).top ≤
        (applyDrags (ShapeRoi.adjust_roi rect pos dx dy) ops).bottom) :=
  ⟨fun rect pos dx dy => ShapeRoi.adjust_roi_inv rect pos dx dy,
   fun rect pos dx dy ops =>
     applyDrags_inv ops (ShapeRoi.adjust_roi rect pos dx dy)
       (ShapeRoi.adjust_roi_inv rect pos dx dy)⟩

/-- Claim C5, counterexample: for a non-anchored Path ROI,
`get_anchor_types` is not the empty list the claim asserts — the `START`
anchor is appended unconditionally before the `is_anchored` test. -/
theorem path_anchor_types_not_empty_when_unanchored :
    PathRoi.get_anchor_types 3 false ≠ ([] : List AnchorPosition) := by
  decide

/-- Claim C5, amended: for an anchored Path with n ≥ 2 vertices
`get_anchor_types` is START, then (n-2) MIDDLE entries, then END (n entries
in total); for a non-anchored Path it is the one-element list [START] (not
empty — the path is still translate-only, but a lone START anchor exists). -/
theorem path_anchor_types_structure (n : ℕ) (hn : 2 ≤ n) :
    (PathRoi.get_anchor_types n true =
      AnchorPosition.START ::
        (List.replicate (n - 2) AnchorPosition.MIDDLE ++ [AnchorPosition.END]) ∧
     (PathRoi.get_anchor_types n true).length = n) ∧
    PathRoi.get_anchor_types n false = [AnchorPosition.START] := by
  refine ⟨⟨?_, ?_⟩, rfl⟩
  · simp [PathRoi.get_anchor_types]
  · simp [PathRoi.get_anchor_types]
    omega

/-- Witness for the amended Claim C5, at n = 3. -/
theorem path_anchor_types_structure_witness :
    (PathRoi.get_anchor_types 3 true =
      AnchorPosition.START ::
        (List.replicate (3 - 2) AnchorPosition.MIDDLE ++ [AnchorPosition.END]) ∧
     (PathRoi.get_anchor_types 3 true).length = 3) ∧
    PathRoi.get_anchor_types 3 false = [AnchorPosition.START] :=
  path_anchor_types_structure 3 (by decide)

/-- Claim C9, counterexample: `adjust_roi` invoked with a foreign anchor
does not fail: `ShapeRoi.adjust_roi` with an anchor of kind START (a kind no
box ROI owns) returns normally and leaves the rect unchanged, and
`PathRoi.adjust_roi` with an anchor absent from `self.anchors` (the loop
matches nothing) returns normally and leaves every path element unchanged. -/
theorem adjust_roi_foreign_anchor_no_error :
    ShapeRoi.adjust_roi ⟨50, 10, 50, 40⟩ AnchorPosition.START 5 5 = ⟨50, 10, 50, 40⟩ ∧
    PathRoi.adjust_roi_core [(0, 0), (10, 0), (5, 5)] false none 5 5 =
      [(0, 0), (10, 0), (5, 5)] := by
  exact ⟨by decide, rfl⟩

/-- Claim C9, amended: a foreign anchor is silently ignored, not an error:
neither `adjust_roi` contains a raise or assert.  `ShapeRoi.adjust_roi`
dispatches purely on the anchor's position kind, so a foreign anchor whose
kind is not a box kind falls through every branch and the rect is merely
re-normalized; `PathRoi.adjust_roi`'s anchor-identity scan finds no match
and the element list is returned untouched. -/
theorem adjust_roi_foreign_anchor_silent :
    (∀ (rect : QRectF) (dx dy : ℚ) (pos : AnchorPosition),
      pos = AnchorPosition.START ∨ pos = AnchorPosition.MIDDLE ∨ pos = AnchorPosition.END →
      ShapeRoi.adjust_roi rect pos dx dy = rect.normalized) ∧
    (∀ (elements : List (ℚ × ℚ)) (is_closed : Bool) (dx dy : ℚ),
      PathRoi.adjust_roi_core elements is_closed none dx dy = elements) := by
  constructor
  · rintro rect dx dy pos (rfl | rfl | rfl) <;> rfl
  · intro elements is_closed dx dy
    rfl

/-- Witness for the amended Claim C9, at a concrete rect, anchor kind and
path. -/
theorem adjust_roi_foreign_anchor_silent_witness :
    ShapeRoi.adjust_roi ⟨50, 10, 50, 40⟩ AnchorPosition.MIDDLE 5 5 =
      QRectF.normalized ⟨50, 10, 50, 40⟩ ∧
    PathRoi.adjust_roi_core [(0, 0), (10, 0)] true none 5 5 = [(0, 0), (10, 0)] :=
  ⟨adjust_roi_foreign_anchor_silent.1 ⟨50, 10, 50, 40⟩ 5 5 AnchorPosition.MIDDLE
      (Or.inr (Or.inl rfl)),
   adjust_roi_foreign_anchor_silent.2 [(0, 0), (10, 0)] true 5 5⟩

/-- Claim C4: on a closed, anchored Path whose last element duplicates vertex
0, `adjust_roi` with the anchor at index 0 moves both vertex 0 and the last
element by exactly (dx,dy) and leaves every other vertex and the element
count unchanged; with an anchor at index i > 0 only vertex i moves. -/
theorem path_adjust_roi_closed_moves_vertices
    (elements : List (ℚ × ℚ)) (v0 : ℚ × ℚ) (dx dy : ℚ)
    (h0 : elements[0]? = some v0)
    (hlast : elements[elements.length - 1]? = some v0)
    (hlen : 2 ≤ elements.length) :
    ((PathRoi.adjust_roi_core elements true (some 0) dx dy).length = elements.length ∧
     (PathRoi.adjust_roi_core elements true (some 0) dx dy)[0]? =
       some (v0.1 + dx, v0.2 + dy) ∧
     (PathRoi.adjust_roi_core elements true (some 0) dx dy)[elements.length - 1]? =
       some (v0.1 + dx, v0.2 + dy) ∧
     ∀ j : ℕ, 0 < j → j < elements.length - 1 →
       (PathRoi.adjust_roi_core elements true (some 0) dx dy)[j]? = elements[j]?) ∧
    (∀ (i : ℕ) (pe : ℚ × ℚ), 0 < i → elements[i]? = some pe →
      (PathRoi.adjust_roi_core elements true (some i) dx dy).length = elements.length ∧
      (PathRoi.adjust_roi_core elements true (some i) dx dy)[i]? =
        some (pe.1 + dx, pe.2 + dy) ∧
      ∀ j : ℕ, j ≠ i →
        (PathRoi.adjust_roi_core elements true (some i) dx dy)[j]? = elements[j]?) := by
  have hpos : 0 < elements.length := by omega
  constructor
  · have hres : PathRoi.adjust_roi_core elements true (some 0) dx dy =
        setElementPositionAt
          (setElementPositionAt elements 0 (v0.1 + dx) (v0.2 + dy))
          ((setElementPositionAt elements 0 (v0.1 + dx) (v0.2 + dy)).length - 1)
          (v0.1 + dx) (v0.2 + dy) := by
      rw [PathRoi.adjust_roi_core, h0]
      simp
    rw [hres]
    simp only [setElementPositionAt, List.length_set]
    refine ⟨trivial, ?_, ?_, ?_⟩
    · rw [List.getElem?_set_ne (by omega), List.getElem?_set_eq_of_lt _ hpos]
    · rw [List.getElem?_set_eq_of_lt _ (by simpa using Nat.sub_lt hpos Nat.one_pos)]
    · intro j hj0 hjlast
      rw [List.getElem?_set_ne (by omega), List.getElem?_set_ne (by omega)]
  · intro i pe hi hpe
    have hilt : i < elements.length := (List.getElem?_eq_some.mp hpe).1
    have hres : PathRoi.adjust_roi_core elements true (some i) dx dy =
        setElementPositionAt elements i (pe.1 + dx) (pe.2 + dy) := by
      rw [PathRoi.adjust_roi_core, hpe]
      simp [Nat.pos_iff_ne_zero.mp hi]
    rw [hres]
    simp only [setElementPositionAt, List.length_set]
    refine ⟨trivial, ?_, ?_⟩
    · rw [List.getElem?_set_eq_of_lt _ hilt]
    · intro j hj
      rw [List.getElem?_set_ne (by omega)]

/-- Witness for Claim C4 on the closed triangle path
[(0,0),(10,0),(5,5),(0,0)] (last element duplicates vertex 0), dragging the
START anchor (index 0) and then the anchor at index 1 by (1,2). -/
theorem path_adjust_roi_closed_moves_vertices_witness :
    (PathRoi.adjust_roi_core [(0, 0), (10, 0), (5, 5), (0, 0)] true (some 0) 1 2).length = 4 ∧
    (PathRoi.adjust_roi_core [(0, 0), (10, 0), (5, 5), (0, 0)] true (some 0) 1 2)[0]? =
      some (1, 2) ∧
    (PathRoi.adjust_roi_core [(0, 0), (10, 0), (5, 5), (0, 0)] true (some 0) 1 2)[3]? =
      some (1, 2) ∧
    (PathRoi.adjust_roi_core [(0, 0), (10, 0), (5, 5), (0, 0)] true (some 0) 1 2)[1]? =
      some (10, 0) ∧
    (PathRoi.adjust_roi_core [(0, 0), (10, 0), (5, 5), (0, 0)] true (some 1) 1 2)[1]? =
      some (11, 2) := by
  have h := path_adjust_roi_closed_moves_vertices
    [(0, 0), (10, 0), (5, 5), (0, 0)] (0, 0) 1 2 rfl rfl (by norm_num)
  obtain ⟨⟨hl, h0, hlast, hmid⟩, hgt⟩ := h
  obtain ⟨_, h1, _⟩ := hgt 1 (10, 0) (by norm_num) rfl
  refine ⟨by simpa using hl, by simpa using h0, by simpa using hlast,
    by simpa using hmid 1 (by norm_num) (by norm_num), by rw [h1]; norm_num⟩

/-- Claim C6: `adjust_anchors` is idempotent — for every ROI state (box,
path or point geometry, any anchor list), applying it twice yields the same
state, anchor positions included, as applying it once. -/
theorem adjust_anchors_idempotent (st : RoiState) :
    SelectionRoi.adjust_anchors (SelectionRoi.adjust_anchors st) =
      SelectionRoi.adjust_anchors st :=
  adjust_anchors_idem st

/-- Claim C7: after `set_to_scale(s)` the ROI pen width is exactly
`base_line_width / s`, every anchor's rect width and height are exactly
`base_anchor_size / s`, and the resulting state is a fixpoint of
`adjust_anchors` (the method ends by calling it, so anchor positions are
already the recomputed ones), for s in {0.5, 1, 2, 10}. -/
theorem set_to_scale_spec (st : RoiState) (s : ℚ)
    (hs : s ∈ ([1 / 2, 1, 2, 10] : List ℚ)) :
    (SelectionRoi.set_to_scale st s).penW = st.base_line_width / s ∧
    ((SelectionRoi.set_to_scale st s).anchors.all fun a =>
      decide (a.rectW = st.base_anchor_size / s ∧ a.rectH = st.base_anchor_size / s)) = true ∧
    SelectionRoi.set_to_scale st s =
      SelectionRoi.adjust_anchors (SelectionRoi.set_to_scale st s) := by
  refine ⟨?_, ?_, ?_⟩
  · show (SelectionRoi.adjust_anchors _).penW = _
    rw [adjust_anchors_penW]
  · show (SelectionRoi.adjust_anchors _).anchors.all _ = true
    rw [adjust_anchors_all _
      (fun a => decide (a.rectW = st.base_anchor_size / s ∧ a.rectH = st.base_anchor_size / s))
      (fun a xv yv => rfl)]
    simp [List.all_map, Function.comp]
  · exact (adjust_anchors_idem
      { st with
        penW := st.base_line_width / s
        anchors := st.anchors.map (fun a =>
          { a with penW := st.base_line_width / s,
                   rectW := st.base_anchor_size / s,
                   rectH := st.base_anchor_size / s }) }).symm

/-- Witness for Claim C7 at a concrete Rectangle ROI and scale 2. -/
theorem set_to_scale_spec_witness :
    (SelectionRoi.set_to_scale (ShapeRoi.construct 0 0 10 10) 2).penW =
      (ShapeRoi.construct 0 0 10 10).base_line_width / 2 ∧
    ((SelectionRoi.set_to_scale (ShapeRoi.construct 0 0 10 10) 2).anchors.all fun a =>
      decide (a.rectW = (ShapeRoi.construct 0 0 10 10).base_anchor_size / 2 ∧
              a.rectH = (ShapeRoi.construct 0 0 10 10).base_anchor_size / 2)) = true ∧
    SelectionRoi.set_to_scale (ShapeRoi.construct 0 0 10 10) 2 =
      SelectionRoi.adjust_anchors (SelectionRoi.set_to_scale (ShapeRoi.construct 0 0 10 10) 2) :=
  set_to_scale_spec (ShapeRoi.construct 0 0 10 10) 2 (by norm_num)

/-- Claim C10: immediately after construction every anchor of every concrete
ROI (base construction, box construction, path construction) has opacity 0,
and `show_anchors(b)` changes each anchor's opacity to 1 (b true) or 0
(b false) while leaving the anchor list length and order, each anchor's
kind, size and position, the geometry and the style fields unchanged. -/
theorem anchors_hidden_and_show_anchors_frame
    (geom : RoiGeometry) (kinds : List AnchorPosition) (st : RoiState) (b : Bool)
    (x0 y0 w h : ℚ) (xs ys : List ℚ) (c anch : Bool) :
    ((SelectionRoi.adjust_anchors (SelectionRoi.init_state geom kinds)).anchors.all fun a =>
      decide (a.opacity = 0)) = true ∧
    ((ShapeRoi.construct x0 y0 w h).anchors.all fun a => decide (a.opacity = 0)) = true ∧
    (PathRoi.construct xs ys c anch).elim True (fun s =>
      (s.anchors.all fun a => decide (a.opacity = 0)) = true) ∧
    SelectionRoi.show_anchors st b =
      { st with anchors := st.anchors.map fun a => { a with opacity := if b then 1 else 0 } } := by
  have hinit : ∀ (g : RoiGeometry) (ks : List AnchorPosition),
      ((SelectionRoi.adjust_anchors (SelectionRoi.init_state g ks)).anchors.all fun a =>
        decide (a.opacity = 0)) = true := by
    intro g ks
    rw [adjust_anchors_all _ (fun a => decide (a.opacity = 0)) (fun a xv yv => rfl)]
    simp [SelectionRoi.init_state, SelectionRoi.hide_anchors, SelectionRoi.show_anchors,
      List.all_map, Function.comp]
  refine ⟨hinit geom kinds, hinit _ _, ?_, rfl⟩
  cases hz : List.zip xs ys with
  | nil => simp [PathRoi.construct, hz]
  | cons v vs =>
    simp only [PathRoi.construct, hz, Option.elim]
    exact hinit _ _

theorem foldl_min_lt_iff {α : Type} (f : α → ℚ) (c : ℚ) (l : List α) :
    ∀ init : ℚ,
      (l.foldl (fun m p => min m (f p)) init < c) ↔ init < c ∨ ∃ p ∈ l, f p < c := by
  induction l with
  | nil => intro init; simp
  | cons a rest ih =>
    intro init
    rw [List.foldl_cons, ih, min_lt_iff]
    constructor
    · rintro ((h | h) | ⟨p, hp, hlt⟩)
      · exact Or.inl h
      · exact Or.inr ⟨a, List.mem_cons_self a rest, h⟩
      · exact Or.inr ⟨p, List.mem_cons_of_mem a hp, hlt⟩
    · rintro (h | ⟨p, hp, hlt⟩)
      · exact Or.inl (Or.inl h)
      · rcases List.mem_cons.mp hp with rfl | hp2
        · exact Or.inl (Or.inr hlt)
        · exact Or.inr ⟨p, hp2, hlt⟩

theorem distance_to_boundary_sq_lt_iff (boundary : ℚ → ℚ × ℚ) (point : ℚ × ℚ) (c : ℚ) :
    distance_to_boundary_sq boundary point < c ↔
      ∃ k : ℕ, k < 200 ∧ distSq point (boundary ((k : ℚ) / 200)) < c := by
  unfold distance_to_boundary_sq
  rw [foldl_min_lt_iff]
  constructor
  · rintro (h | ⟨p, hp, hlt⟩)
    · exact ⟨0, by norm_num, by simpa using h⟩
    · obtain ⟨k, hk, rfl⟩ := List.mem_map.mp hp
      exact ⟨k, List.mem_range.mp hk, hlt⟩
  · rintro ⟨k, hk, hlt⟩
    exact Or.inr ⟨(k : ℚ) / 200, List.mem_map.mpr ⟨k, List.mem_range.mpr hk, rfl⟩, hlt⟩

/-- Claim C8: the mouse-press hit test accepts a point exactly when some
boundary sample at path percent k/200 (k = 0..199, i.e. every 0.5% of the
path, up to but excluding 1.0) lies at Euclidean distance strictly below the
tolerance 4 — equivalently, when the minimum sampled distance is below 4.
Concretely, on the Rectangle with rect (0,0,100,100): the point (50,-3),
3 units from the boundary, is a hit, and the interior point (20,20),
20 units from the nearest boundary point, is not. -/
theorem hit_test_boundary_spec :
    (∀ (boundary : ℚ → ℚ × ℚ) (point : ℚ × ℚ),
      mousePress_accepts boundary point = true ↔
        ∃ k : ℕ, k < 200 ∧
          Real.sqrt ((distSq point (boundary ((k : ℚ) / 200)) : ℚ) : ℝ) < 4) ∧
    mousePress_accepts (rectPointAtPercent ⟨0, 0, 100, 100⟩) (50, -3) = true ∧
    mousePress_accepts (rectPointAtPercent ⟨0, 0, 100, 100⟩) (20, 20) = false := by
  refine ⟨?_, ?_, ?_⟩
  · intro boundary point
    simp only [mousePress_accepts, decide_eq_true_eq]
    rw [distance_to_boundary_sq_lt_iff]
    refine exists_congr fun k => and_congr_right fun hk => ?_
    rw [Real.sqrt_lt' (by norm_num : (0 : ℝ) < 4)]
    constructor
    · intro h
      have : ((distSq point (boundary ((k : ℚ) / 200)) : ℚ) : ℝ) < ((16 : ℚ) : ℝ) := by
        exact_mod_cast h
      calc ((distSq point (boundary ((k : ℚ) / 200)) : ℚ) : ℝ) < ((16 : ℚ) : ℝ) := this
        _ = (4 : ℝ) ^ 2 := by norm_num
    · intro h
      have : ((distSq point (boundary ((k : ℚ) / 200)) : ℚ) : ℝ) < ((16 : ℚ) : ℝ) := by
        calc ((distSq point (boundary ((k : ℚ) / 200)) : ℚ) : ℝ) < (4 : ℝ) ^ 2 := h
          _ = ((16 : ℚ) : ℝ) := by norm_num
      exact_mod_cast this
  · simp only [mousePress_accepts, decide_eq_true_eq]
    rw [distance_to_boundary_sq_lt_iff]
    refine ⟨25, by norm_num, ?_⟩
    simp only [rectPointAtPercent, distSq]
    norm_num
  · simp only [mousePress_accepts]
    rw [decide_eq_false_iff_not, distance_to_boundary_sq_lt_iff]
    rintro ⟨k, hk, hlt⟩
    have hbound : ∀ t : ℚ, 16 ≤ distSq (20, 20) (rectPointAtPercent ⟨0, 0, 100, 100⟩ t) := by
      intro t
      simp only [rectPointAtPercent, distSq]
      split_ifs <;>
        (dsimp only
         nlinarith [sq_nonneg (t * 400 - 20), sq_nonneg (t * 400 - 120),
           sq_nonneg (280 - t * 400), sq_nonneg (380 - t * 400)])
    exact absurd hlt (not_lt.mpr (hbound _))

end ImageViewer
